import Mathlib

/-!
Verification of the gravitino python client fragment:
`api/decimal.py` (fixed-point decimal values) and
`api/expressions/transforms.py` (transform expression family).

The python `decimal.Decimal` values that flow through `decimal.py` are
modelled by the tuple representation python itself exposes through
`as_tuple()`: a sign, a digit list and an exponent.
-/

namespace Gravitino

/-- The data of a python `decimal.Decimal`, as exposed by `as_tuple()`:
`sign = true` means negative, `digits` are the coefficient digits
(most significant first), `exponent` the decimal exponent. -/
structure PyDec where
  sign : Bool
  digits : List ℕ
  exponent : ℤ
  deriving DecidableEq

/-- The coefficient encoded by a digit list (most significant first). -/
def coeffFold (ds : List ℕ) : ℕ :=
  ds.foldl (fun a d => 10 * a + d) 0

/-- Fuel-driven base-10 digit expansion (most significant first);
`fuel ≥ n` suffices for a complete expansion. -/
def natDigitsAux : ℕ → ℕ → List ℕ
  | 0, _ => []
  | fuel + 1, n => if n = 0 then [] else natDigitsAux fuel (n / 10) ++ [n % 10]

/-- Digit list of a natural number, most significant first, `[0]` for zero —
the digit tuple python stores for a coefficient. -/
def digitsOf (n : ℕ) : List ℕ :=
  if n = 0 then [0] else natDigitsAux n n

/-- Coefficient of a `PyDec` (`int(''.join(digits))`). -/
def PyDec.coefficient (d : PyDec) : ℕ := coeffFold d.digits

/-- The rational value of a `PyDec`: `±coefficient · 10^exponent`
(written with `ℕ`-powers so that it evaluates by kernel reduction). -/
def PyDec.toRat (d : PyDec) : ℚ :=
  let mag : ℚ :=
    if 0 ≤ d.exponent then (d.coefficient : ℚ) * 10 ^ d.exponent.toNat
    else (d.coefficient : ℚ) / 10 ^ (-d.exponent).toNat
  if d.sign then -mag else mag

/-- Python's `Decimal.adjusted()`: `exponent + len(digits) - 1`. -/
def PyDec.adjusted (d : PyDec) : ℤ :=
  d.exponent + d.digits.length - 1

/-- `value.quantize(Decimal((0,(1,),-scale)), rounding=ROUND_HALF_UP)`:
rescale the coefficient to exponent `-scale`, rounding half away from
zero when digits are dropped (python's ROUND_HALF_UP). -/
def quantizeHalfUp (d : PyDec) (scale : ℤ) : PyDec :=
  let k := d.exponent + scale
  if 0 ≤ k then
    ⟨d.sign, digitsOf (d.coefficient * 10 ^ k.toNat), -scale⟩
  else
    let pw := 10 ^ (-k).toNat
    ⟨d.sign, digitsOf ((d.coefficient + pw / 2) / pw), -scale⟩

/-- The single validation-error kind of the component (spec §7). The
python code signals it by raising (`ValueError` for the magnitude check,
and whatever `check_precision_scale` raises for the bounds check). -/
inductive DecErr where
  | invalidArgument (msg : String)
  deriving DecidableEq

/-- The state a fully constructed `Decimal` holds: the quantized value
and the (explicit or derived) precision and scale. -/
structure Decimal where
  value : PyDec
  precision : ℤ
  scale : ℤ
  deriving DecidableEq

/-- `Decimal.__init__` / `Decimal.of` from `decimal.py`, parametric in the
external validator `Types.DecimalType.check_precision_scale` (its bounds
are catalog-defined and its module is outside this fragment):
derive missing precision (`len(digits)`) and scale (`-exponent`), run the
bounds check, reject values whose magnitude exceeds the precision
(`precision < value.adjusted() + 1`), then store the half-up-quantized
value together with precision and scale. -/
def Decimal.of (check : ℤ → ℤ → Bool) (value : PyDec)
    (precision? : Option ℤ) (scale? : Option ℤ) : Except DecErr Decimal :=
  let precision := precision?.getD (value.digits.length : ℤ)
  let scale := scale?.getD (-value.exponent)
  if check precision scale = false then
    Except.error (DecErr.invalidArgument "precision or scale out of allowed bounds")
  else if precision < value.adjusted + 1 then
    Except.error (DecErr.invalidArgument
      "Precision of value cannot be greater than precision of decimal")
  else
    Except.ok ⟨quantizeHalfUp value scale, precision, scale⟩

/-- `Decimal.__eq__`: same scale and numerically equal stored value
(python `Decimal.__eq__` compares by numeric value). -/
def decimalEq (a b : Decimal) : Bool :=
  decide (a.scale = b.scale ∧ a.value.toRat = b.value.toRat)

/-- The key `Decimal.__hash__` feeds to python's `hash`:
`(self._value, self._precision, self._scale)`; python hashes
numerically equal decimals equally, so the value component is its
rational value. -/
def decimalHashKey (a : Decimal) : ℚ × ℤ × ℤ :=
  (a.value.toRat, a.precision, a.scale)

/-- The number of decimal digits needed to write the integer part of a
value (one digit, `0`, for magnitudes below one). -/
def intPartDigitCount (d : PyDec) : ℤ :=
  ((digitsOf (Int.toNat ⌊|d.toRat|⌋)).length : ℤ)

/-- Modelled from the spec: a sample concrete validator for
`Types.DecimalType.check_precision_scale` (`types.py` is outside this
fragment; the spec only states bounds are catalog-defined and that
precision is a positive integer and scale a non-negative integer
not exceeding the precision). -/
def chkStd (p s : ℤ) : Bool :=
  decide (1 ≤ p ∧ p ≤ 38 ∧ 0 ≤ s ∧ s ≤ p)

/-- `chkStd` only accepts positive precisions. -/
lemma chkStd_pos {p s : ℤ} (h : chkStd p s = true) : 1 ≤ p := by
  simp only [chkStd, decide_eq_true_eq] at h
  exact h.1

/-- `toRat` written with an integer power of ten. -/
lemma PyDec.toRat_eq_zpow (d : PyDec) :
    d.toRat = (if d.sign then (-1 : ℚ) else 1) * (d.coefficient : ℚ) * (10 : ℚ) ^ d.exponent := by
  unfold PyDec.toRat
  rcases le_or_lt 0 d.exponent with he | he
  · rw [if_pos he]
    rw [show ((10 : ℚ) ^ d.exponent = (10 : ℚ) ^ d.exponent.toNat) from by
      rw [← zpow_natCast, Int.toNat_of_nonneg he]]
    cases d.sign <;> simp
  · rw [if_neg (not_le.mpr he)]
    rw [show ((10 : ℚ) ^ d.exponent = ((10 : ℚ) ^ (-d.exponent).toNat)⁻¹) from by
      rw [← zpow_natCast, Int.toNat_of_nonneg (by omega), ← zpow_neg, neg_neg]]
    cases d.sign <;> simp [div_eq_mul_inv]

/-- The absolute value of `toRat` is `coefficient · 10^exponent`. -/
lemma PyDec.abs_toRat (d : PyDec) :
    |d.toRat| = (d.coefficient : ℚ) * (10 : ℚ) ^ d.exponent := by
  rw [d.toRat_eq_zpow]
  have h10 : (0 : ℚ) < (10 : ℚ) ^ d.exponent := zpow_pos (by norm_num) _
  cases hs : d.sign <;> simp [abs_of_nonneg, abs_mul, abs_of_pos h10]

lemma coeffFold_cons (d : ℕ) (ds : List ℕ) :
    coeffFold (d :: ds) = ds.foldl (fun a x => 10 * a + x) d := by
  simp [coeffFold]

lemma coeffFold_acc_lt (ds : List ℕ) (hds : ∀ d ∈ ds, d < 10) :
    ∀ acc : ℕ, ds.foldl (fun a x => 10 * a + x) acc < (acc + 1) * 10 ^ ds.length := by
  induction ds with
  | nil => intro acc; simp [Nat.lt_succ_self acc]
  | cons d ds ih =>
    intro acc
    have hd : d < 10 := hds d (by simp)
    have hds' : ∀ x ∈ ds, x < 10 := fun x hx => hds x (by simp [hx])
    have h1 := ih hds' (10 * acc + d)
    calc (d :: ds).foldl (fun a x => 10 * a + x) acc
        = ds.foldl (fun a x => 10 * a + x) (10 * acc + d) := by simp
      _ < (10 * acc + d + 1) * 10 ^ ds.length := h1
      _ ≤ ((acc + 1) * 10) * 10 ^ ds.length := by
          have : 10 * acc + d + 1 ≤ (acc + 1) * 10 := by omega
          exact Nat.mul_le_mul_right _ this
      _ = (acc + 1) * 10 ^ (d :: ds).length := by
          simp [List.length_cons, pow_succ]; ring

/-- Digits below ten encode a coefficient below `10^length`. -/
lemma coeffFold_lt (ds : List ℕ) (hds : ∀ d ∈ ds, d < 10) :
    coeffFold ds < 10 ^ ds.length := by
  simpa using coeffFold_acc_lt ds hds 0

lemma natDigitsAux_zero (fuel : ℕ) : natDigitsAux fuel 0 = [] := by
  cases fuel <;> simp [natDigitsAux]

lemma coeffFold_natDigitsAux (fuel : ℕ) :
    ∀ n : ℕ, n ≤ fuel → coeffFold (natDigitsAux fuel n) = n := by
  induction fuel with
  | zero => intro n hn; interval_cases n; simp [natDigitsAux, coeffFold]
  | succ fuel ih =>
    intro n hn
    by_cases hz : n = 0
    · subst hz; simp [natDigitsAux, coeffFold]
    · have hdiv : n / 10 ≤ fuel := by
        have := Nat.div_lt_self (Nat.pos_of_ne_zero hz) (by norm_num : 1 < 10)
        omega
      have := ih (n / 10) hdiv
      simp only [natDigitsAux, if_neg hz]
      rw [coeffFold, List.foldl_append, ← coeffFold]
      simp [this, Nat.div_add_mod]

/-- Expanding a natural number into digits and reading them back is
the identity. -/
lemma coeffFold_digitsOf (n : ℕ) : coeffFold (digitsOf n) = n := by
  by_cases hz : n = 0
  · subst hz; simp [digitsOf, coeffFold]
  · simp only [digitsOf, if_neg hz]
    exact coeffFold_natDigitsAux n n le_rfl

lemma natDigitsAux_length (fuel : ℕ) :
    ∀ n : ℕ, 0 < n → n ≤ fuel → (natDigitsAux fuel n).length = Nat.log 10 n + 1 := by
  induction fuel with
  | zero => intro n hn hle; omega
  | succ fuel ih =>
    intro n hn hle
    have hz : n ≠ 0 := Nat.pos_iff_ne_zero.mp hn
    simp only [natDigitsAux, if_neg hz, List.length_append, List.length_singleton]
    by_cases hlt : n < 10
    · have : n / 10 = 0 := Nat.div_eq_of_lt hlt
      rw [this, natDigitsAux_zero]
      simp [Nat.log_eq_zero_iff, hlt]
    · push_neg at hlt
      have hpos : 0 < n / 10 := Nat.div_pos hlt (by norm_num)
      have hdiv : n / 10 ≤ fuel := by
        have := Nat.div_lt_self hn (by norm_num : 1 < 10)
        omega
      rw [ih (n / 10) hpos hdiv]
      have hlog : Nat.log 10 (n / 10) = Nat.log 10 n - 1 := Nat.log_div_base 10 n
      have hlogpos : 0 < Nat.log 10 n := Nat.log_pos (by norm_num) hlt
      omega

/-- The digit expansion of a positive number has `log₁₀ n + 1` digits. -/
lemma digitsOf_length (n : ℕ) (hn : 0 < n) :
    (digitsOf n).length = Nat.log 10 n + 1 := by
  simp only [digitsOf, if_neg (Nat.pos_iff_ne_zero.mp hn)]
  exact natDigitsAux_length n n hn le_rfl

/-! ## The transform expression family (`transforms.py`)

`NamedReference` and `Literals` live in modules outside this fragment
(`named_reference.py`, `literals.py`); they are modelled from the spec
(§3, §6) where noted. -/

/-- Modelled from the spec: `NamedReference` (`named_reference.py` is
outside this fragment) — "an opaque identifier for a (possibly nested)
field path — ordered sequence of string path segments", with
equality/hash by path; `field_name()` returns the segments. -/
structure NamedReference where
  field_name : List String
  deriving DecidableEq

/-- The argument a caller may pass for a field name: either a bare
string or an ordered sequence of path segments (python's
"str or list" union). -/
inductive FieldNameArg where
  | str (s : String)
  | path (segments : List String)
  deriving DecidableEq

/-- Modelled from the spec (§6): `NamedReference.field(path)` "builds a
field reference from a single name or an ordered sequence of names". -/
def NamedReference.field : FieldNameArg → NamedReference
  | .str s => ⟨[s]⟩
  | .path p => ⟨p⟩

/-- Modelled from the spec: the textual rendering of a reference
(`str(field)`, used only as hash-key material in `BucketTransform`). -/
def NamedReference.strOf (r : NamedReference) : String :=
  String.intercalate "." r.field_name

/-- Modelled from the spec (§6): an integer-literal expression value
produced by the `Literals` constructors (`literals.py` is outside this
fragment); it carries the plain integer it was built from. -/
structure Literal where
  value : ℤ
  deriving DecidableEq

/-- Modelled from the spec (§6): `Literals.integer_literal(n)`. -/
def Literals.integer_literal (n : ℤ) : Literal := ⟨n⟩

/-- Modelled from the spec: the textual rendering of an integer literal
(`str(...)` on the literal that `BucketTransform.arguments` builds). -/
def Literal.strOf (l : Literal) : String := toString l.value

/-- `ListPartition`: in the source an empty placeholder class; the `id`
stands for python object identity, so that distinct partition objects
are distinguishable. -/
structure ListPartition where
  id : ℕ
  deriving DecidableEq

/-- `RangePartition`: in the source an empty placeholder class; the `id`
stands for python object identity. -/
structure RangePartition where
  id : ℕ
  deriving DecidableEq

/-- A preassigned partition value (element of an `assignments` list). -/
inductive PartitionVal where
  | lp (p : ListPartition)
  | rp (p : RangePartition)
  deriving DecidableEq

/-- A python value that can appear in a transform's argument list:
a string, a plain integer, a field reference, or a literal object. -/
inductive PyVal where
  | vStr (s : String)
  | vInt (n : ℤ)
  | vRef (r : NamedReference)
  | vLit (l : Literal)
  deriving DecidableEq

/-- The closed family of concrete transform variants of `transforms.py`
(each constructor is one concrete class; all of them subclass
`Transforms` directly, none subclasses another). -/
inductive Transform where
  | identity (ref : NamedReference)
  | year (ref : NamedReference)
  | month (ref : NamedReference)
  | day (ref : NamedReference)
  | hour (ref : NamedReference)
  | bucket (numBuckets : Literal) (fields : List NamedReference)
  | truncate (width : Literal) (field : NamedReference)
  | listT (fields : List NamedReference) (assignments : List ListPartition)
  | rangeT (field : NamedReference) (assignments : List RangePartition)
  | apply (name : String) (arguments : List PyVal)
  deriving DecidableEq

namespace Transforms

/-- `Transforms.identity`: normalize a bare string to a one-element
list, then build the reference. -/
def identity (field_name : FieldNameArg) : Transform :=
  match field_name with
  | .str s => .identity (NamedReference.field (.path [s]))
  | a => .identity (NamedReference.field a)

/-- `Transforms.year`. -/
def year (field_name : FieldNameArg) : Transform :=
  match field_name with
  | .str s => .year (NamedReference.field (.path [s]))
  | a => .year (NamedReference.field a)

/-- `Transforms.month`. -/
def month (field_name : FieldNameArg) : Transform :=
  match field_name with
  | .str s => .month (NamedReference.field (.path [s]))
  | a => .month (NamedReference.field a)

/-- `Transforms.day`. -/
def day (field_name : FieldNameArg) : Transform :=
  match field_name with
  | .str s => .day (NamedReference.field (.path [s]))
  | a => .day (NamedReference.field a)

/-- `Transforms.hour`. -/
def hour (field_name : FieldNameArg) : Transform :=
  match field_name with
  | .str s => .hour (NamedReference.field (.path [s]))
  | a => .hour (NamedReference.field a)

/-- `Transforms.bucket(num_buckets, *field_names)`: wrap the bucket
count in an integer literal and build one reference per field name
(no string normalization in the factory itself; `NamedReference.field`
accepts both forms). -/
def bucket (num_buckets : ℤ) (field_names : List FieldNameArg) : Transform :=
  .bucket (Literals.integer_literal num_buckets) (field_names.map NamedReference.field)

/-- `Transforms.truncate(width, field_name)`: wrap the width in an
integer literal, normalizing a bare string first. -/
def truncate (width : ℤ) (field_name : FieldNameArg) : Transform :=
  match field_name with
  | .str s => .truncate (Literals.integer_literal width) (NamedReference.field (.path [s]))
  | a => .truncate (Literals.integer_literal width) (NamedReference.field a)

/-- `Transforms.list(field_names, assignments=None)`: one reference per
field-name group, defaulting absent assignments to the empty list. -/
def list (field_names : List FieldNameArg)
    (assignments : Option (List ListPartition)) : Transform :=
  .listT (field_names.map NamedReference.field) (assignments.getD [])

/-- `Transforms.range(field_name, assignments=None)`. -/
def range (field_name : FieldNameArg)
    (assignments : Option (List RangePartition)) : Transform :=
  .rangeT (NamedReference.field field_name) (assignments.getD [])

/-- `Transforms.apply(name, *arguments)`: `ApplyTransform` stores the
argument tuple as a list, preserving order. -/
def apply (name : String) (arguments : List PyVal) : Transform :=
  .apply name arguments

end Transforms

/-- `name()` of each variant (the fixed lowercase tag, or the stored
name for `ApplyTransform`). -/
def nameOf : Transform → String
  | .identity _ => "identity"
  | .year _ => "year"
  | .month _ => "month"
  | .day _ => "day"
  | .hour _ => "hour"
  | .bucket _ _ => "bucket"
  | .truncate _ _ => "truncate"
  | .listT _ _ => "list"
  | .rangeT _ _ => "range"
  | .apply n _ => n

/-- The flattened field-name parts of a list of references
(`[part for field in fields for part in field.field_name()]`). -/
def flattenNames (fs : List NamedReference) : List String :=
  fs.foldr (fun f acc => f.field_name ++ acc) []

/-- `arguments()` of each variant, as written in each class. -/
def argumentsOf : Transform → List PyVal
  | .identity r => [.vRef r]
  | .year r => [.vRef r]
  | .month r => [.vRef r]
  | .day r => [.vRef r]
  | .hour r => [.vRef r]
  | .bucket n fs =>
      .vStr (Literal.strOf (Literals.integer_literal n.value)) ::
        (flattenNames fs).map .vStr
  | .truncate w f => [.vLit w, .vRef f]
  | .listT fs _ => fs.map .vRef
  | .rangeT f _ => [.vRef f]
  | .apply _ args => args

/-- The single field reference of a single-field variant. -/
def refOf : Transform → Option NamedReference
  | .identity r => some r
  | .year r => some r
  | .month r => some r
  | .day r => some r
  | .hour r => some r
  | .truncate _ f => some f
  | .rangeT f _ => some f
  | _ => none

/-- `BucketTransform.num_buckets` (the stored literal object). -/
def bucketNumBuckets : Transform → Option Literal
  | .bucket n _ => some n
  | _ => none

/-- `BucketTransform.field_names` (the flattened parts of all fields). -/
def bucketFieldNames : Transform → Option (List String)
  | .bucket _ fs => some (flattenNames fs)
  | _ => none

/-- The `__eq__` methods of the concrete variant classes: every one
first requires the other object to be an instance of the same class,
then compares the per-class key. -/
def pyEq : Transform → Transform → Bool
  | .identity r, .identity r' => decide (r = r')
  | .year r, .year r' => decide (r = r')
  | .month r, .month r' => decide (r = r')
  | .day r, .day r' => decide (r = r')
  | .hour r, .hour r' => decide (r = r')
  | .bucket n fs, .bucket n' fs' =>
      decide (n = n' ∧ flattenNames fs = flattenNames fs')
  | .truncate w f, .truncate w' f' => decide (w = w' ∧ f = f')
  | .listT fs _, .listT fs' _ => decide (fs = fs')
  | .rangeT f _, .rangeT f' _ => decide (f = f')
  | .apply n args, .apply n' args' => decide (n = n' ∧ args = args')
  | _, _ => false

/-- The tuple each variant's `__hash__` feeds to python's `hash`. -/
inductive HashKey where
  | ofRef (r : NamedReference)
  | ofBucket (n : Literal) (fieldStrs : List String)
  | ofTruncate (w : Literal) (f : NamedReference)
  | ofList (fs : List NamedReference)
  | ofApply (n : String) (args : List PyVal)
  deriving DecidableEq

/-- The hash input of each variant: the single-field variants and
`RangeTransform` all hash `hash(self.ref)` / `hash(self.field)`;
`BucketTransform` hashes `(num_buckets, *(str(field) for field in
fields))`; `TruncateTransform` `(width, field)`; `ListTransform`
`tuple(fields)`; `ApplyTransform` `(name, tuple(arguments))`. -/
def transformHashKey : Transform → HashKey
  | .identity r => .ofRef r
  | .year r => .ofRef r
  | .month r => .ofRef r
  | .day r => .ofRef r
  | .hour r => .ofRef r
  | .bucket n fs => .ofBucket n (fs.map NamedReference.strOf)
  | .truncate w f => .ofTruncate w f
  | .listT fs _ => .ofList fs
  | .rangeT f _ => .ofRef f
  | .apply n args => .ofApply n args

/-- The concrete class of a transform (python's `type(obj)`), as an
index into the closed variant family. -/
def tagOf : Transform → ℕ
  | .identity _ => 0
  | .year _ => 1
  | .month _ => 2
  | .day _ => 3
  | .hour _ => 4
  | .bucket _ _ => 5
  | .truncate _ _ => 6
  | .listT _ _ => 7
  | .rangeT _ _ => 8
  | .apply _ _ => 9

/-- What python attribute lookup finds under the name `assignments` on
a transform object: `ListTransform.__init__` and `RangeTransform.__init__`
store the supplied list in `self.assignments`, and an instance attribute
shadows the class-level method of the same name; every other variant
only sees the base-class method, which returns
`Partitions.EMPTY_PARTITIONS`. -/
inductive AssignmentsAttr where
  | instanceData (ps : List PartitionVal)
  | boundMethod (result : List PartitionVal)
  deriving DecidableEq

/-- Attribute lookup for `assignments` (instance dict first, then the
class), following `transforms.py`. -/
def assignmentsAttr : Transform → AssignmentsAttr
  | .listT _ a => .instanceData (a.map .lp)
  | .rangeT _ a => .instanceData (a.map .rp)
  | _ => .boundMethod []

/-- The error a python call expression can raise at dispatch time. -/
inductive PyCallErr where
  | typeError (msg : String)
  deriving DecidableEq

/-- The call `t.assignments()`: calling the bound method returns its
result; calling a plain list (the shadowing instance attribute) raises
`TypeError`. -/
def callAssignments (t : Transform) : Except PyCallErr (List PartitionVal) :=
  match assignmentsAttr t with
  | .boundMethod ps => Except.ok ps
  | .instanceData _ => Except.error (.typeError "list object is not callable")

/-! ## Supporting lemmas for the rounding and magnitude analysis -/

/-- Half of a positive power of ten casts exactly. -/
lemma cast_pow_ten_div_two (t : ℕ) (ht : 0 < t) :
    ((10 ^ t / 2 : ℕ) : ℚ) = ((10 ^ t : ℕ) : ℚ) / 2 := by
  have h2 : 2 ∣ 10 ^ t := dvd_pow (by norm_num) (Nat.pos_iff_ne_zero.mp ht)
  rw [Nat.cast_div h2 (by norm_num)]
  norm_num

lemma floor_one_half : ⌊(1 : ℚ) / 2⌋ = 0 := by
  rw [show (1 : ℚ) / 2 = ((1 : ℤ) : ℚ) / ((2 : ℕ) : ℚ) by norm_num,
    Rat.floor_intCast_div_natCast]
  decide

lemma half_up_div_cast (c pw : ℕ) (hpw : ((pw : ℚ)) ≠ 0)
    (h2 : ((pw / 2 : ℕ) : ℚ) = (pw : ℚ) / 2) :
    (c : ℚ) * ((pw : ℚ))⁻¹ + 1 / 2 = ((c + pw / 2 : ℕ) : ℚ) / (pw : ℚ) := by
  rw [show ((c + pw / 2 : ℕ) : ℚ) = (c : ℚ) + ((pw / 2 : ℕ) : ℚ) from by push_cast; ring]
  rw [h2, eq_div_iff hpw]
  field_simp
  ring

lemma floor_natCast_div_natCast (m pw : ℕ) :
    ⌊((m : ℕ) : ℚ) / ((pw : ℕ) : ℚ)⌋ = ((m / pw : ℕ) : ℤ) := by
  rw [show ((m : ℕ) : ℚ) = (((m : ℕ) : ℤ) : ℚ) from by push_cast; ring,
    Rat.floor_intCast_div_natCast]
  exact (Int.ofNat_tdiv _ _).symm

/-- `quantizeHalfUp` keeps the sign, sets the exponent to `-scale`, and
its coefficient is the magnitude rounded half-up at that scale: exactly
python's `quantize(..., rounding=ROUND_HALF_UP)` (half away from zero). -/
lemma quantizeHalfUp_spec (v : PyDec) (s : ℤ) :
    (quantizeHalfUp v s).exponent = -s ∧ (quantizeHalfUp v s).sign = v.sign ∧
    ((quantizeHalfUp v s).coefficient : ℤ) = ⌊|v.toRat| * (10 : ℚ) ^ s + 1 / 2⌋ := by
  have habs : |v.toRat| * (10 : ℚ) ^ s = (v.coefficient : ℚ) * (10 : ℚ) ^ (v.exponent + s) := by
    rw [PyDec.abs_toRat, mul_assoc, ← zpow_add₀ (by norm_num : (10 : ℚ) ≠ 0)]
  rw [quantizeHalfUp]
  by_cases hk : 0 ≤ v.exponent + s
  · rw [if_pos hk]
    refine ⟨rfl, rfl, ?_⟩
    have hzp : (10 : ℚ) ^ (v.exponent + s) = ((10 ^ (v.exponent + s).toNat : ℕ) : ℚ) := by
      push_cast
      rw [← zpow_natCast (10 : ℚ) (v.exponent + s).toNat, Int.toNat_of_nonneg hk]
    rw [habs, hzp, PyDec.coefficient, coeffFold_digitsOf]
    rw [show (v.coefficient : ℚ) * ((10 ^ (v.exponent + s).toNat : ℕ) : ℚ) =
        (((v.coefficient * 10 ^ (v.exponent + s).toNat : ℕ) : ℤ) : ℚ) by push_cast; ring]
    rw [Int.floor_int_add, floor_one_half]
    push_cast
    ring
  · rw [if_neg hk]
    refine ⟨rfl, rfl, ?_⟩
    push_neg at hk
    set t := (-(v.exponent + s)).toNat with hts
    have htpos : 0 < t := by omega
    have hzp : (10 : ℚ) ^ (v.exponent + s) = (((10 ^ t : ℕ) : ℚ))⁻¹ := by
      push_cast
      rw [← zpow_natCast (10 : ℚ) t, ← zpow_neg]
      congr 1
      omega
    rw [PyDec.coefficient, coeffFold_digitsOf, habs, hzp]
    have hpw : (((10 : ℕ) ^ t : ℕ) : ℚ) ≠ 0 := by positivity
    rw [half_up_div_cast v.coefficient (10 ^ t) hpw (cast_pow_ten_div_two t htpos)]
    rw [floor_natCast_div_natCast]

/-! ## The claims -/

/-- Claim C1: two `Decimal` values compare equal iff they have the same
scale and the same stored (rounded) value — precision is excluded from
equality — while the hash is computed over `(value, precision, scale)`,
so precision participates in the hash but not in equality; witnessed on
two decimals actually built by `Decimal.of` from the same input with
different precisions. -/
theorem decimal_eq_ignores_precision_but_hash_key_includes_it :
    (∀ a b : Decimal, decimalEq a b = true ↔ a.scale = b.scale ∧ a.value.toRat = b.value.toRat) ∧
    (∀ a b : Decimal, decimalHashKey a = decimalHashKey b ↔
      a.value.toRat = b.value.toRat ∧ a.precision = b.precision ∧ a.scale = b.scale) ∧
    (∃ a b : Decimal,
      Decimal.of chkStd ⟨false, [3,1,4], -2⟩ (some 10) (some 2) = Except.ok a ∧
      Decimal.of chkStd ⟨false, [3,1,4], -2⟩ (some 5) (some 2) = Except.ok b ∧
      decimalEq a b = true ∧ decimalHashKey a ≠ decimalHashKey b) := by
  refine ⟨?_, ?_, ?_⟩
  · intro a b
    simp [decimalEq]
  · intro a b
    simp [decimalHashKey, Prod.ext_iff]
  · refine ⟨⟨⟨false,[3,1,4],-2⟩,10,2⟩, ⟨⟨false,[3,1,4],-2⟩,5,2⟩, rfl, rfl, ?_, ?_⟩
    · simp [decimalEq]
    · simp [decimalHashKey, Prod.ext_iff]

/-- Claim C2 (code bug): on `ListTransform` and `RangeTransform` the
constructor statement `self.assignments = assignments` shadows the
method `assignments()`, so the call `t.assignments()` raises
`TypeError` instead of returning the supplied partitions; the supplied
list is reachable only as a data attribute, and (as the claim also
states) assignments do not participate in equality. -/
theorem list_and_range_assignments_call_raises_type_error :
    callAssignments (Transforms.list [.path ["a"]] (some [⟨0⟩])) =
      Except.error (PyCallErr.typeError "list object is not callable") ∧
    callAssignments (Transforms.range (.path ["a"]) (some [⟨0⟩])) =
      Except.error (PyCallErr.typeError "list object is not callable") ∧
    assignmentsAttr (Transforms.list [.path ["a"]] (some [⟨0⟩])) =
      AssignmentsAttr.instanceData [.lp ⟨0⟩] ∧
    pyEq (Transforms.list [.path ["a"], .path ["b"]] (some [⟨0⟩]))
      (Transforms.list [.path ["a"], .path ["b"]] (some [⟨1⟩])) = true := by
  refine ⟨rfl, rfl, rfl, by decide⟩

/-- Claim C3: `Transforms.bucket(4, "x", "y")` has name `"bucket"`, its
`num_buckets` is the integer literal built from `4`, `field_names` is
`["x","y"]`, `arguments()` is the rendering of an integer literal for 4
followed by the flattened field-name parts, and a second identical call
produces an equal transform with the same hash key. -/
theorem bucket_four_x_y_properties :
    nameOf (Transforms.bucket 4 [.str "x", .str "y"]) = "bucket" ∧
    bucketNumBuckets (Transforms.bucket 4 [.str "x", .str "y"]) =
      some (Literals.integer_literal 4) ∧
    (Literals.integer_literal 4).value = 4 ∧
    bucketFieldNames (Transforms.bucket 4 [.str "x", .str "y"]) = some ["x", "y"] ∧
    argumentsOf (Transforms.bucket 4 [.str "x", .str "y"]) =
      PyVal.vStr (Literal.strOf (Literals.integer_literal 4)) ::
        [PyVal.vStr "x", PyVal.vStr "y"] ∧
    Literal.strOf (Literals.integer_literal 4) = "4" ∧
    pyEq (Transforms.bucket 4 [.str "x", .str "y"])
      (Transforms.bucket 4 [.str "x", .str "y"]) = true ∧
    transformHashKey (Transforms.bucket 4 [.str "x", .str "y"]) =
      transformHashKey (Transforms.bucket 4 [.str "x", .str "y"]) := by
  refine ⟨rfl, rfl, rfl, rfl, rfl, by decide, by decide, rfl⟩

/-- Claim C4: whenever `Decimal.of` succeeds with explicit precision and
scale, the stored value has exponent `-scale`, keeps the input's sign,
and its coefficient is the input's magnitude rounded to `scale`
fractional digits by round-half-up (`⌊|v|·10^scale + 1/2⌋`). -/
theorem of_stores_value_rounded_half_up_to_scale :
    ∀ (check : ℤ → ℤ → Bool) (v : PyDec) (p s : ℤ) (d : Decimal),
    Decimal.of check v (some p) (some s) = Except.ok d →
    d.scale = s ∧ d.value.exponent = -s ∧ d.value.sign = v.sign ∧
    (d.value.coefficient : ℤ) = ⌊|v.toRat| * (10 : ℚ) ^ s + 1 / 2⌋ := by
  intro check v p s d h
  unfold Decimal.of at h
  simp only [Option.getD_some] at h
  split at h
  · cases h
  · split at h
    · cases h
    · cases h
      exact ⟨rfl, (quantizeHalfUp_spec v s).1, (quantizeHalfUp_spec v s).2.1,
        (quantizeHalfUp_spec v s).2.2⟩

/-- Witness for claim C4: `Decimal.of("1.005", 4, 2)` stores `1.01`. -/
theorem of_stores_value_rounded_half_up_to_scale_witness : ∃ d : Decimal,
    Decimal.of chkStd ⟨false, [1,0,0,5], -3⟩ (some 4) (some 2) = Except.ok d ∧
    d.value = ⟨false, [1,0,1], -2⟩ ∧ d.value.toRat = 101/100 ∧
    (d.value.coefficient : ℤ) =
      ⌊|(⟨false, [1,0,0,5], -3⟩ : PyDec).toRat| * (10 : ℚ) ^ (2 : ℤ) + 1 / 2⌋ := by
  refine ⟨⟨⟨false,[1,0,1],-2⟩,4,2⟩, rfl, rfl, ?_,
    (of_stores_value_rounded_half_up_to_scale chkStd ⟨false,[1,0,0,5],-3⟩ 4 2
      ⟨⟨false,[1,0,1],-2⟩,4,2⟩ rfl).2.2.2⟩
  norm_num [PyDec.toRat, PyDec.coefficient, coeffFold]
  rw [show ((2:ℤ).toNat : ℕ) = 2 from rfl]
  norm_num

/-- Claim C5: `Decimal.of` fails with `InvalidArgument` whenever the
requested precision is smaller than the number of digits required by
the integer part of the value (stated for any validator that only
accepts positive precisions, as the spec's data model requires);
atomically — the result is an error, no partially constructed value. -/
theorem of_fails_invalid_argument_when_precision_below_integer_digit_count :
    ∀ (check : ℤ → ℤ → Bool) (v : PyDec) (p : ℤ) (s? : Option ℤ),
    (∀ x ∈ v.digits, x < 10) →
    (∀ a b : ℤ, check a b = true → 1 ≤ a) →
    p < intPartDigitCount v →
    ∃ msg, Decimal.of check v (some p) s? = Except.error (DecErr.invalidArgument msg) := by
  intro check v p s? hdig hcheck hlt
  unfold Decimal.of
  simp only [Option.getD_some]
  by_cases hc : check p (s?.getD (-v.exponent)) = false
  · rw [if_pos hc]
    exact ⟨_, rfl⟩
  · rw [if_neg hc]
    have hctrue : check p (s?.getD (-v.exponent)) = true := by
      cases hcb : check p (s?.getD (-v.exponent))
      · exact absurd hcb hc
      · rfl
    have hp1 : 1 ≤ p := hcheck p _ hctrue
    have hmag : p < v.adjusted + 1 := by
      set m := (⌊|v.toRat|⌋).toNat with hm
      have hfl_nonneg : 0 ≤ ⌊|v.toRat|⌋ := Int.floor_nonneg.mpr (abs_nonneg _)
      by_cases hm0 : m = 0
      · exfalso
        have hone : intPartDigitCount v = 1 := by
          rw [intPartDigitCount, ← hm, hm0]
          rfl
        omega
      · have hmpos : 0 < m := Nat.pos_of_ne_zero hm0
        have hcount : intPartDigitCount v = ((Nat.log 10 m + 1 : ℕ) : ℤ) := by
          rw [intPartDigitCount, ← hm, digitsOf_length m hmpos]
        rw [hcount] at hlt
        have hple : p.toNat ≤ Nat.log 10 m := by omega
        have hpow : 10 ^ p.toNat ≤ m :=
          (Nat.pow_le_iff_le_log (by norm_num) hm0).mpr hple
        have h1 : ((10 ^ p.toNat : ℕ) : ℚ) ≤ (m : ℚ) := Nat.cast_le.mpr hpow
        have h2 : ((m : ℕ) : ℚ) ≤ |v.toRat| := by
          have hcast : ((m : ℕ) : ℚ) = ((⌊|v.toRat|⌋ : ℤ) : ℚ) := by
            rw [hm]
            exact_mod_cast congrArg (fun z : ℤ => (z : ℚ)) (Int.toNat_of_nonneg hfl_nonneg)
          rw [hcast]
          exact Int.floor_le _
        have hclt : (v.coefficient : ℚ) < ((10 ^ v.digits.length : ℕ) : ℚ) :=
          Nat.cast_lt.mpr (coeffFold_lt v.digits hdig)
        have h3 : |v.toRat| < ((10 ^ v.digits.length : ℕ) : ℚ) * (10 : ℚ) ^ v.exponent := by
          rw [PyDec.abs_toRat]
          exact mul_lt_mul_of_pos_right hclt (zpow_pos (by norm_num) _)
        have hzp1 : ((10 ^ p.toNat : ℕ) : ℚ) = (10 : ℚ) ^ (p.toNat : ℤ) := by
          push_cast
          rw [← zpow_natCast]
        have hzp2 : ((10 ^ v.digits.length : ℕ) : ℚ) * (10 : ℚ) ^ v.exponent =
            (10 : ℚ) ^ ((v.digits.length : ℤ) + v.exponent) := by
          rw [show ((10 ^ v.digits.length : ℕ) : ℚ) =
              (10 : ℚ) ^ ((v.digits.length : ℕ) : ℤ) from by push_cast; rw [← zpow_natCast]]
          rw [← zpow_add₀ (by norm_num : (10 : ℚ) ≠ 0)]
        have hfinal : (10 : ℚ) ^ (p.toNat : ℤ) <
            (10 : ℚ) ^ ((v.digits.length : ℤ) + v.exponent) := by
          rw [← hzp1, ← hzp2]
          exact lt_of_le_of_lt (le_trans h1 h2) h3
        have hexp : (p.toNat : ℤ) < (v.digits.length : ℤ) + v.exponent :=
          (zpow_lt_zpow_iff_right₀ (by norm_num : (1 : ℚ) < 10)).mp hfinal
        unfold PyDec.adjusted
        omega
    rw [if_pos hmag]
    exact ⟨_, rfl⟩

/-- Witness for claim C5: `Decimal.of("999", precision=2)` fails with
`InvalidArgument`. -/
theorem of_fails_invalid_argument_when_precision_below_integer_digit_count_witness :
    (∀ x ∈ (⟨false, [9,9,9], 0⟩ : PyDec).digits, x < 10) ∧
    (2 : ℤ) < intPartDigitCount ⟨false, [9,9,9], 0⟩ ∧
    ∃ msg, Decimal.of chkStd ⟨false, [9,9,9], 0⟩ (some 2) none =
      Except.error (DecErr.invalidArgument msg) := by
  have hv : (⟨false, [9,9,9], 0⟩ : PyDec).toRat = 999 := by
    norm_num [PyDec.toRat, PyDec.coefficient, coeffFold]
  have hc : intPartDigitCount ⟨false, [9,9,9], 0⟩ = 3 := by
    rw [intPartDigitCount, hv, show |(999:ℚ)| = ((999:ℤ):ℚ) by norm_num, Int.floor_intCast]
    rfl
  refine ⟨by decide, by omega, ?_⟩
  exact of_fails_invalid_argument_when_precision_below_integer_digit_count
    chkStd ⟨false, [9,9,9], 0⟩ 2 none (by decide) (fun a b h => chkStd_pos h) (by omega)

/-- Claim C6: every `Transforms` factory accepts a bare field-name
string or a path and produces the same single-segment reference for
both; in particular `Transforms.identity("a")` equals
`Transforms.identity(["a"])` and both hold the reference `["a"]`. -/
theorem factories_normalize_bare_string_to_single_segment_path : ∀ (s : String) (w : ℤ),
    Transforms.identity (.str s) = Transforms.identity (.path [s]) ∧
    Transforms.year (.str s) = Transforms.year (.path [s]) ∧
    Transforms.month (.str s) = Transforms.month (.path [s]) ∧
    Transforms.day (.str s) = Transforms.day (.path [s]) ∧
    Transforms.hour (.str s) = Transforms.hour (.path [s]) ∧
    Transforms.truncate w (.str s) = Transforms.truncate w (.path [s]) ∧
    Transforms.range (.str s) none = Transforms.range (.path [s]) none ∧
    Transforms.bucket w [.str s] = Transforms.bucket w [.path [s]] ∧
    Transforms.list [.str s] none = Transforms.list [.path [s]] none ∧
    refOf (Transforms.identity (.str s)) = some ⟨[s]⟩ ∧
    pyEq (Transforms.identity (.str s)) (Transforms.identity (.path [s])) = true := by
  intro s w
  refine ⟨rfl, rfl, rfl, rfl, rfl, rfl, rfl, rfl, rfl, rfl, ?_⟩
  simp [Transforms.identity, pyEq, NamedReference.field]

/-- Claim C7: when precision and scale are omitted, `Decimal.of` derives
precision as the number of digits of the input and scale as the negated
exponent (digits after the decimal point). -/
theorem of_derives_precision_from_digits_and_scale_from_exponent :
    ∀ (check : ℤ → ℤ → Bool) (v : PyDec) (d : Decimal),
    Decimal.of check v none none = Except.ok d →
    d.precision = (v.digits.length : ℤ) ∧ d.scale = -v.exponent := by
  intro check v d h
  unfold Decimal.of at h
  simp only [Option.getD_none] at h
  split at h
  · cases h
  · split at h
    · cases h
    · cases h
      exact ⟨rfl, rfl⟩

/-- Witness for claim C7: `Decimal.of("123.45")` yields precision 5 and
scale 2. -/
theorem of_derives_precision_from_digits_and_scale_from_exponent_witness : ∃ d : Decimal,
    Decimal.of chkStd ⟨false, [1,2,3,4,5], -2⟩ none none = Except.ok d ∧
    d.precision = 5 ∧ d.scale = 2 := by
  refine ⟨⟨⟨false,[1,2,3,4,5],-2⟩,5,2⟩, rfl, ?_⟩
  have h := of_derives_precision_from_digits_and_scale_from_exponent
    chkStd ⟨false, [1,2,3,4,5], -2⟩ ⟨⟨false,[1,2,3,4,5],-2⟩,5,2⟩ rfl
  exact ⟨h.1.trans (by decide), h.2.trans (by decide)⟩

/-- Claim C8: `ApplyTransform` preserves argument order, its equality
and hash key are exactly the pair `(name, arguments)`, and two distinct
argument orderings give unequal transforms — in particular
`apply("f", 1, "x") ≠ apply("f", "x", 1)`. -/
theorem apply_transform_preserves_order_eq_hash_by_name_and_arguments :
    (∀ (n₁ n₂ : String) (a₁ a₂ : List PyVal),
      pyEq (Transforms.apply n₁ a₁) (Transforms.apply n₂ a₂) = true ↔ n₁ = n₂ ∧ a₁ = a₂) ∧
    (∀ (n₁ n₂ : String) (a₁ a₂ : List PyVal),
      transformHashKey (Transforms.apply n₁ a₁) = transformHashKey (Transforms.apply n₂ a₂) ↔
        n₁ = n₂ ∧ a₁ = a₂) ∧
    (∀ (n : String) (a : List PyVal), argumentsOf (Transforms.apply n a) = a) ∧
    pyEq (Transforms.apply "f" [.vInt 1, .vStr "x"])
      (Transforms.apply "f" [.vStr "x", .vInt 1]) = false := by
  refine ⟨?_, ?_, fun n a => rfl, by decide⟩
  · intro n₁ n₂ a₁ a₂
    simp [Transforms.apply, pyEq]
  · intro n₁ n₂ a₁ a₂
    simp only [Transforms.apply, transformHashKey]
    constructor
    · intro h
      cases h
      exact ⟨rfl, rfl⟩
    · rintro ⟨rfl, rfl⟩
      rfl

/-- Claim C9: the magnitude check runs on the value before rounding, so
`Decimal.of("9.5", 1, 0)` succeeds (with a validator accepting
precision 1, scale 0) and stores `10`, whose integer part needs two
digits — more than the requested precision of 1. -/
theorem magnitude_check_before_rounding_lets_overflowing_value_through :
    Decimal.of chkStd ⟨false, [9,5], -1⟩ (some 1) (some 0) =
      Except.ok ⟨⟨false, [1,0], 0⟩, 1, 0⟩ ∧
    (⟨false, [1,0], 0⟩ : PyDec).toRat = 10 ∧
    intPartDigitCount ⟨false, [1,0], 0⟩ = 2 ∧
    (1 : ℤ) < intPartDigitCount ⟨false, [1,0], 0⟩ := by
  have hv : (⟨false, [1,0], 0⟩ : PyDec).toRat = 10 := by
    norm_num [PyDec.toRat, PyDec.coefficient, coeffFold]
  have hc : intPartDigitCount ⟨false, [1,0], 0⟩ = 2 := by
    rw [intPartDigitCount, hv, show |(10:ℚ)| = ((10:ℤ):ℚ) by norm_num, Int.floor_intCast]
    rfl
  exact ⟨rfl, hv, hc, by omega⟩

/-- Claim C10: transforms of different variants are never equal — every
concrete variant's `__eq__` requires the other object to be an instance
of the same class; in particular `Transforms.year(p)` is never equal to
`Transforms.month(p)`. -/
theorem transforms_of_distinct_variants_never_equal :
    (∀ t₁ t₂ : Transform, tagOf t₁ ≠ tagOf t₂ → pyEq t₁ t₂ = false) ∧
    (∀ p : FieldNameArg, pyEq (Transforms.year p) (Transforms.month p) = false) := by
  constructor
  · intro t₁ t₂ h
    cases t₁ <;> cases t₂ <;> first | exact absurd rfl h | rfl
  · intro p
    cases p <;> rfl

/-- Witness for claim C10: a year transform is not equal to a month
transform on the same path. -/
theorem transforms_of_distinct_variants_never_equal_witness :
    pyEq (Transform.year ⟨["a"]⟩) (Transform.month ⟨["a"]⟩) = false :=
  transforms_of_distinct_variants_never_equal.1
    (Transform.year ⟨["a"]⟩) (Transform.month ⟨["a"]⟩) (by decide)

end Gravitino
